import Mathlib

/-!
Verification development for the aws-lambda-events request-normalization
library.  The TypeScript sources are embedded shallowly: JS objects become
insertion-ordered association lists, `undefined`/`null` become `Option`,
throwing code returns `Except`, and the memoized parsed-body cache becomes
explicit state passing on a `Request` value.  Platform builtins the code
calls (`JSON.parse`, `Buffer.from(_, "base64")`) are parameters of the
model; `URLSearchParams` is modelled after its standard urlencoded parsing.
-/

/-- JSON-style dynamic value: the shape of values produced by the host JSON
parser and stored in request bodies. -/
inductive Json where
  | null
  | bool (b : Bool)
  | num (n : Int)
  | str (s : String)
  | arr (elems : List Json)
  | obj (fields : List (String × Json))

/-- First-match lookup in an insertion-ordered JS object, modelling
`obj[key]` for objects with unique keys. -/
def jsLookup {α : Type} (m : List (String × α)) (key : String) : Option α :=
  match m with
  | [] => none
  | (k, v) :: rest => if k = key then some v else jsLookup rest key

/-- Models the JS `key in obj` presence test. -/
def jsHasKey {α : Type} (m : List (String × α)) (key : String) : Bool :=
  (jsLookup m key).isSome

/-- Models JS assignment `obj[key] = v`: overwrites in place when the key
exists, appends otherwise. -/
def recordSet {α : Type} (m : List (String × α)) (key : String) (v : α) :
    List (String × α) :=
  match m with
  | [] => [(key, v)]
  | (k, w) :: rest => if k = key then (k, v) :: rest else (k, w) :: recordSet rest key v

/-- Models `x ?? d` for an `x : α | undefined`. -/
def jsOr {α : Type} (v : Option α) (d : Option α) : Option α :=
  match v with
  | some x => some x
  | none => d

/-- Models `x ?? d` where `x : unknown` may be the JS `null` value itself
(nullish coalescing: only `null`/`undefined` trigger the default). -/
def jsNullishOr (v : Option Json) (d : Option Json) : Option Json :=
  match v with
  | none => d
  | some .null => d
  | some x => some x

/-- ASCII lower-casing of one character, as `toLowerCase` does on the
ASCII inputs the embedded code handles. -/
def lowerChar (c : Char) : Char :=
  if 'A' ≤ c ∧ c ≤ 'Z' then Char.ofNat (c.toNat + 32) else c

/-- Models `s.toLowerCase()`. -/
def jsToLower (s : String) : String :=
  String.mk (s.data.map lowerChar)

/-- JS whitespace characters relevant to `trim()` on header values. -/
def isJsSpace (c : Char) : Bool :=
  c = ' ' ∨ c = '\t' ∨ c = '\n' ∨ c = '\r'

/-- Models `s.trim()`: strip whitespace from both ends. -/
def jsTrim (s : String) : String :=
  String.mk (((s.data.dropWhile isJsSpace).reverse.dropWhile isJsSpace).reverse)

/-- Splitting a character list at every occurrence of a separator, as
`s.split(sep)` does for a one-character separator (so `""` gives `[""]`). -/
def splitOnChar (sep : Char) : List Char → List (List Char)
  | [] => [[]]
  | c :: rest =>
    match splitOnChar sep rest with
    | [] => [[]]
    | seg :: segs => if c = sep then [] :: seg :: segs else (c :: seg) :: segs

/-- The segment of a string before the first occurrence of a separator:
`s.split(sep)[0]`. -/
def charsBefore (sep : Char) : List Char → List Char
  | [] => []
  | c :: rest => if c = sep then [] else c :: charsBefore sep rest

/-- Numeric value of a hexadecimal digit, if the character is one. -/
def hexDigitVal (c : Char) : Option Nat :=
  if '0' ≤ c ∧ c ≤ '9' then some (c.toNat - '0'.toNat)
  else if 'a' ≤ c ∧ c ≤ 'f' then some (10 + c.toNat - 'a'.toNat)
  else if 'A' ≤ c ∧ c ≤ 'F' then some (10 + c.toNat - 'A'.toNat)
  else none

/-- Percent-decoding pass of WHATWG urlencoded parsing (code points taken
byte-for-byte; the embedded inputs are ASCII). -/
def percentDecode : List Char → List Char
  | [] => []
  | '%' :: a :: b :: rest =>
    match hexDigitVal a, hexDigitVal b with
    | some ha, some hb => Char.ofNat (16 * ha + hb) :: percentDecode rest
    | _, _ => '%' :: percentDecode (a :: b :: rest)
  | c :: rest => c :: percentDecode rest

/-- The `+`-to-space replacement of urlencoded parsing. -/
def plusToSpace (cs : List Char) : List Char :=
  cs.map (fun c => if c = '+' then ' ' else c)

/-- Full urlencoded component decoding: `+` to space, then percent-decode. -/
def formDecode (cs : List Char) : String :=
  String.mk (percentDecode (plusToSpace cs))

/-- Models `new URLSearchParams(init).entries()`: the ordered key/value
pairs of an urlencoded string (a single leading `?` is stripped, empty
segments are skipped, the split on `=` is at the first occurrence). -/
def urlSearchParamsEntries (init : String) : List (String × String) :=
  let cs := match init.data with
    | '?' :: rest => rest
    | other => other
  (splitOnChar '&' cs).filterMap (fun part =>
    if part = [] then none
    else
      match splitOnChar '=' part with
      | [] => none
      | [name] => some (formDecode name, "")
      | name :: rest => some (formDecode name, formDecode (List.intercalate ['='] rest)))

/-- Models `params.getAll(key)`: every value stored under `key`, in order. -/
def urlSearchParamsGetAll (entries : List (String × String)) (key : String) :
    List String :=
  entries.filterMap (fun p => if p.1 = key then some p.2 else none)

/-- `BaseRequest.parseFormBody`: for each key of the urlencoded body keep
only the last occurrence's value (`values.at(-1) ?? ""`). -/
def parseFormBody (rawBody : String) : List (String × String) :=
  let params := urlSearchParamsEntries rawBody
  params.foldl (fun result kv =>
    recordSet result kv.1 ((urlSearchParamsGetAll params kv.1).getLast?.getD "")) []

/-- `HttpApiRequest.parseRawQuery`: group the raw query string by key in
first-seen order, joining all values of a key with commas. -/
def parseRawQuery (rawQuery : String) : List (String × String) :=
  if rawQuery = "" then []
  else
    let params := urlSearchParamsEntries rawQuery
    params.foldl (fun map kv =>
      let allValues := urlSearchParamsGetAll params kv.1
      if allValues.length = 0 then map
      else recordSet map kv.1 (String.intercalate "," allValues)) []

/-- A failure thrown by a validator capability: either the library's own
`ValidationError(message, details)`, some other `Error` instance, or a
thrown non-`Error` value. -/
inductive JsError where
  | validationError (message : String) (details : Json)
  | otherError (message : String)
  | thrownValue (value : Json)

/-- The details payload carried by a `ValidationError` surfaced from
`validate()`: either the library-produced issue list, or the original
non-validation failure that was wrapped. -/
inductive VDetails where
  | payload (d : Json)
  | original (e : JsError)

/-- The library's error taxonomy (`core/errors.ts` plus `ValidationError`). -/
inductive RequestError where
  | unsupportedEvent (message : String)
  | bodyParse (message : String)
  | validation (message : String) (details : VDetails)

/-- `error instanceof Error ? error.message : "Validation failed"`. -/
def jsErrorMessage : JsError → String
  | .validationError m _ => m
  | .otherError m => m
  | .thrownValue _ => "Validation failed"

/-- The two recognized payload shapes (`EventKind`). -/
inductive EventKind where
  | v1
  | v2
deriving DecidableEq

/-- The three data sources `validate()` accepts. -/
inductive ValidationSource where
  | body
  | query
  | path
deriving DecidableEq

/-- The value a validator capability receives: `undefined` (body source
with a non-JSON parsed body), a parsed JSON body, or a raw
string-to-nullable-string parameter mapping (query/path sources). -/
inductive ValidatorInput where
  | undefinedValue
  | json (v : Json)
  | strMap (m : List (String × Option String))

/-- The memoized parsed-body cache variants (`ParsedBody` in
`core/request.ts`; the form variant only ever stores single strings). -/
inductive ParsedBody where
  | empty
  | json (value : Json)
  | form (value : List (String × String))
  | text (value : String)

/-- Host platform builtins the request code calls: `JSON.parse` (result or
thrown message) and base64 decoding of a body (`Buffer.from(_, "base64")`). -/
structure Platform where
  jsonParse : String → Except String Json
  base64ToUtf8 : String → String

/-- A duck-typed incoming event as seen by `detectEventKind`: only the
discriminant fields matter, each possibly absent. -/
structure RawEvent where
  version : Option String
  rawPath : Option String
  httpMethod : Option String
  path : Option String

/-- `detectEventKind` (`adapters/detect.ts`). -/
def detectEventKind (e : RawEvent) : Except RequestError EventKind :=
  if e.version = some "2.0" ∨ e.rawPath.isSome then .ok .v2
  else if e.httpMethod.isSome ∧ e.path.isSome then .ok .v1
  else .error (.unsupportedEvent "Unsupported event shape")

/-- Payload v1.0 ("REST") proxy event: the fields the embedded code reads.
Header/parameter maps are insertion-ordered with nullable values, outer
`Option` models a `null`/absent map. -/
structure ProxyEventV1 where
  httpMethod : String
  path : String
  headers : Option (List (String × Option String))
  multiValueHeaders : Option (List (String × Option (List String)))
  queryStringParameters : Option (List (String × Option String))
  multiValueQueryStringParameters : Option (List (String × Option (List String)))
  pathParameters : Option (List (String × Option String))
  body : Option String
  isBase64Encoded : Bool
  requestTimeEpoch : Option Int

/-- Payload v2.0 ("HTTP") proxy event: the fields the embedded code reads. -/
structure ProxyEventV2 where
  version : String
  rawPath : String
  rawQueryString : Option String
  headers : Option (List (String × Option String))
  queryStringParameters : Option (List (String × Option String))
  pathParameters : Option (List (String × Option String))
  body : Option String
  isBase64Encoded : Bool
  method : String
  timeEpoch : Option Int

/-- The data `BaseRequest`'s shared logic needs from a concrete adapter:
the event fields it reads directly plus the two adapter primitives
(`headerLookup`, `getQueryParamValue`). -/
structure RequestModel where
  body : Option String
  isBase64Encoded : Bool
  queryStringParameters : Option (List (String × Option String))
  pathParameters : Option (List (String × Option String))
  headerLookup : String → Option String
  queryParamValue : String → Option String

/-- A live request instance: the wrapped (read-only) model and the
memoized parsed-body cache, `none` until first computed. -/
structure Request where
  model : RequestModel
  cache : Option ParsedBody

/-- `BaseRequest.getRawBody`: absent for null/undefined/empty bodies,
base64-decoded text when the flag is set, the body verbatim otherwise. -/
def BaseRequest.getRawBody (pf : Platform) (m : RequestModel) : Option String :=
  match m.body with
  | none => none
  | some b =>
    if b = "" then none
    else if m.isBase64Encoded then some (pf.base64ToUtf8 b)
    else some b

/-- `BaseRequest.getHeader`: lower-case the requested name, delegate to the
adapter's case-insensitive lookup, apply the default. -/
def BaseRequest.getHeader (m : RequestModel) (name : String) (d : Option String) :
    Option String :=
  jsOr (m.headerLookup (jsToLower name)) d

/-- The content type resolved by `ensureParsedBody`: the part of the
`content-type` header before the first `;`, trimmed and lower-cased. -/
def resolveContentType (m : RequestModel) : Option String :=
  (BaseRequest.getHeader m "content-type" none).map
    (fun h => jsToLower (jsTrim (String.mk (charsBefore ';' h.data))))

/-- `BaseRequest.ensureParsedBody`: return the memoized parsed body, or
compute and cache it; a failing JSON parse throws before the cache is
written. -/
def BaseRequest.ensureParsedBody (pf : Platform) (r : Request) :
    Except RequestError (ParsedBody × Request) :=
  match r.cache with
  | some pb => .ok (pb, r)
  | none =>
    match BaseRequest.getRawBody pf r.model with
    | none => .ok (.empty, { r with cache := some .empty })
    | some rawBody =>
      if rawBody = "" then .ok (.empty, { r with cache := some .empty })
      else if resolveContentType r.model = some "application/json" then
        match pf.jsonParse rawBody with
        | .ok value => .ok (.json value, { r with cache := some (.json value) })
        | .error msg => .error (.bodyParse msg)
      else if resolveContentType r.model = some "application/x-www-form-urlencoded" then
        .ok (.form (parseFormBody rawBody), { r with cache := some (.form (parseFormBody rawBody)) })
      else .ok (.text rawBody, { r with cache := some (.text rawBody) })

/-- JS property access on a parsed JSON value (plain records; array index
and length access included, prototype members not modelled). -/
def jsProp (v : Json) (key : String) : Option Json :=
  match v with
  | .obj fields => jsLookup fields key
  | .arr xs =>
    if key = "length" then some (.num xs.length)
    else
      match key.toNat? with
      | some i => if key = toString i then xs[i]? else none
      | none => none
  | _ => none

/-- `typeof value === "object" && value !== null` for parsed JSON values. -/
def isObjectLike : Json → Bool
  | .obj _ => true
  | .arr _ => true
  | _ => false

/-- `BaseRequest.getInput`: lazy body parse, then a nullish-coalescing
lookup in a JSON object body or the form mapping; default otherwise. -/
def BaseRequest.getInput (pf : Platform) (r : Request) (key : String)
    (d : Option Json) : Except RequestError (Option Json × Request) :=
  match BaseRequest.ensureParsedBody pf r with
  | .error e => .error e
  | .ok (pb, r') =>
    match pb with
    | .json v =>
      if isObjectLike v then .ok (jsNullishOr (jsProp v key) d, r')
      else .ok (d, r')
    | .form m => .ok (jsNullishOr ((jsLookup m key).map Json.str) d, r')
    | _ => .ok (d, r')

/-- `BaseRequest.getInputs` loop body: `result[key] = this.getInput(key, d)`. -/
def BaseRequest.getInputsAux (pf : Platform) (d : Option Json) :
    List String → List (String × Option Json) → Request →
    Except RequestError (List (String × Option Json) × Request)
  | [], acc, r => .ok (acc, r)
  | key :: rest, acc, r =>
    match BaseRequest.getInput pf r key d with
    | .error e => .error e
    | .ok (v, r') => BaseRequest.getInputsAux pf d rest (recordSet acc key v) r'

/-- `BaseRequest.getInputs`: per-key `getInput` accumulated in a result
object. -/
def BaseRequest.getInputs (pf : Platform) (r : Request) (keys : List String)
    (d : Option Json) : Except RequestError (List (String × Option Json) × Request) :=
  BaseRequest.getInputsAux pf d keys [] r

/-- `BaseRequest.getJsonBody`: the parsed value only when the cache tag is
`json`, absent otherwise. -/
def BaseRequest.getJsonBody (pf : Platform) (r : Request) :
    Except RequestError (Option Json × Request) :=
  match BaseRequest.ensureParsedBody pf r with
  | .error e => .error e
  | .ok (.json v, r') => .ok (some v, r')
  | .ok (_, r') => .ok (none, r')

/-- `BaseRequest.getQueryStr`: adapter primitive plus default. -/
def BaseRequest.getQueryStr (m : RequestModel) (key : String) (d : Option String) :
    Option String :=
  jsOr (m.queryParamValue key) d

/-- `BaseRequest.getQueryStrs`: per-key `getQueryStr` accumulated in a
result object. -/
def BaseRequest.getQueryStrs (m : RequestModel) (keys : List String)
    (d : Option String) : List (String × Option String) :=
  keys.foldl (fun result key => recordSet result key (BaseRequest.getQueryStr m key d)) []

/-- `getPathParam` (identical in both adapters): lookup in the
path-parameter mapping (or `{}` when null) plus default. -/
def BaseRequest.getPathParam (m : RequestModel) (key : String) (d : Option String) :
    Option String :=
  jsOr (Option.join (jsLookup (m.pathParameters.getD []) key)) d

/-- Normalization of failures thrown by a validator capability inside
`validate()`: a `ValidationError` is rethrown unchanged, anything else is
wrapped into a `ValidationError` carrying the original message as reason
and the original failure as details. -/
def BaseRequest.runValidator (validator : ValidatorInput → Except JsError Json)
    (data : ValidatorInput) : Except RequestError Json :=
  match validator data with
  | .ok v => .ok v
  | .error (.validationError m dt) => .error (.validation m (.payload dt))
  | .error e => .error (.validation (jsErrorMessage e) (.original e))

/-- The validator input for the body source: the JSON body value when the
parsed body is JSON, JS `undefined` otherwise. -/
def bodyValidatorInput (v : Option Json) : ValidatorInput :=
  match v with
  | some j => .json j
  | none => .undefinedValue

/-- `BaseRequest.validate`: resolve the data value by source, then invoke
the validator capability with failure normalization. -/
def BaseRequest.validate (pf : Platform) (r : Request)
    (validator : ValidatorInput → Except JsError Json) (source : ValidationSource) :
    Except RequestError (Json × Request) :=
  match source with
  | .body =>
    match BaseRequest.getJsonBody pf r with
    | .error e => .error e
    | .ok (v, r') =>
      match BaseRequest.runValidator validator (bodyValidatorInput v) with
      | .ok out => .ok (out, r')
      | .error e => .error e
  | .query =>
    match BaseRequest.runValidator validator
        (.strMap (r.model.queryStringParameters.getD [])) with
    | .ok out => .ok (out, r)
    | .error e => .error e
  | .path =>
    match BaseRequest.runValidator validator
        (.strMap (r.model.pathParameters.getD [])) with
    | .ok out => .ok (out, r)
    | .error e => .error e

/-- Case-insensitive first-match scan of a header object's entries:
`some value` when some entry name matches (the value may itself be
null/undefined), `none` when no entry matches. -/
def scanEntries {α : Type} (entries : List (String × α)) (normalized : String) :
    Option α :=
  match entries with
  | [] => none
  | (name, value) :: rest =>
    if jsToLower name = normalized then some value else scanEntries rest normalized

/-- `RestApiRequest.headerLookup`: scan the single-value header map first
(a matching null value is returned as absent); only if no name matches,
scan the multi-value map and take the first entry of the first match. -/
def RestApiRequest.headerLookup (e : ProxyEventV1) (normalized : String) :
    Option String :=
  match scanEntries (e.headers.getD []) normalized with
  | some value => value
  | none =>
    match scanEntries (e.multiValueHeaders.getD []) normalized with
    | some values => values.bind List.head?
    | none => none

/-- `RestApiRequest.getQueryParamValue`: comma-join of the multi-value
mapping's entries when present and non-empty, else the single-value
mapping's value when the key exists (null normalized to absent). -/
def RestApiRequest.getQueryParamValue (e : ProxyEventV1) (key : String) :
    Option String :=
  let fromMulti : Option String :=
    match e.multiValueQueryStringParameters with
    | some multi =>
      match jsLookup multi key with
      | some (some vs) =>
        if vs.length > 0 then some (String.intercalate "," vs) else none
      | _ => none
    | none => none
  match fromMulti with
  | some v => some v
  | none =>
    match e.queryStringParameters with
    | some singles =>
      if jsHasKey singles key then Option.join (jsLookup singles key) else none
    | none => none

/-- The `RequestModel` a `RestApiRequest` wraps. -/
def RestApiRequest.toModel (e : ProxyEventV1) : RequestModel where
  body := e.body
  isBase64Encoded := e.isBase64Encoded
  queryStringParameters := e.queryStringParameters
  pathParameters := e.pathParameters
  headerLookup := RestApiRequest.headerLookup e
  queryParamValue := RestApiRequest.getQueryParamValue e

/-- A freshly constructed `RestApiRequest` (cache unset). -/
def RestApiRequest.toRequest (e : ProxyEventV1) : Request where
  model := RestApiRequest.toModel e
  cache := none

/-- `getQueryStr` on a REST request. -/
def RestApiRequest.getQueryStr (e : ProxyEventV1) (key : String) (d : Option String) :
    Option String :=
  BaseRequest.getQueryStr (RestApiRequest.toModel e) key d

/-- `getQueryStrs` on a REST request. -/
def RestApiRequest.getQueryStrs (e : ProxyEventV1) (keys : List String)
    (d : Option String) : List (String × Option String) :=
  BaseRequest.getQueryStrs (RestApiRequest.toModel e) keys d

/-- `getHeader` on a REST request. -/
def RestApiRequest.getHeader (e : ProxyEventV1) (name : String) (d : Option String) :
    Option String :=
  BaseRequest.getHeader (RestApiRequest.toModel e) name d

/-- The raw-query-derived map a `HttpApiRequest` computes at construction. -/
def HttpApiRequest.rawQueryMap (e : ProxyEventV2) : List (String × String) :=
  parseRawQuery (e.rawQueryString.getD "")

/-- `HttpApiRequest.getQueryParamValue`: prefer the raw-query-derived map,
fall back to the gateway single-value map when the key is absent there
(null normalized to absent). -/
def HttpApiRequest.getQueryParamValue (e : ProxyEventV2) (key : String) :
    Option String :=
  match jsLookup (HttpApiRequest.rawQueryMap e) key with
  | some raw => some raw
  | none =>
    let fromEvent := e.queryStringParameters.getD []
    if jsHasKey fromEvent key then Option.join (jsLookup fromEvent key) else none

/-- `HttpApiRequest.headerLookup`: scan of the single-value header map only. -/
def HttpApiRequest.headerLookup (e : ProxyEventV2) (normalized : String) :
    Option String :=
  Option.join (scanEntries (e.headers.getD []) normalized)

/-- The `RequestModel` a `HttpApiRequest` wraps. -/
def HttpApiRequest.toModel (e : ProxyEventV2) : RequestModel where
  body := e.body
  isBase64Encoded := e.isBase64Encoded
  queryStringParameters := e.queryStringParameters
  pathParameters := e.pathParameters
  headerLookup := HttpApiRequest.headerLookup e
  queryParamValue := HttpApiRequest.getQueryParamValue e

/-- A freshly constructed `HttpApiRequest` (cache unset). -/
def HttpApiRequest.toRequest (e : ProxyEventV2) : Request where
  model := HttpApiRequest.toModel e
  cache := none

/-- `getQueryStr` on an HTTP request. -/
def HttpApiRequest.getQueryStr (e : ProxyEventV2) (key : String) (d : Option String) :
    Option String :=
  BaseRequest.getQueryStr (HttpApiRequest.toModel e) key d

/-- `getQueryStrs` on an HTTP request. -/
def HttpApiRequest.getQueryStrs (e : ProxyEventV2) (keys : List String)
    (d : Option String) : List (String × Option String) :=
  BaseRequest.getQueryStrs (HttpApiRequest.toModel e) keys d

/-- One public accessor invocation on a request instance. -/
inductive Op where
  | pathParam (key : String) (d : Option String)
  | queryStr (key : String) (d : Option String)
  | queryStrs (keys : List String) (d : Option String)
  | header (name : String) (d : Option String)
  | rawBody
  | jsonBody
  | input (key : String) (d : Option Json)
  | inputs (keys : List String) (d : Option Json)
  | validate (v : ValidatorInput → Except JsError Json) (source : ValidationSource)

/-- The request state after one accessor call: state-changing accessors
return their updated state; a thrown error leaves the instance as it was
(the cache write happens only after a successful parse). -/
def runOp (pf : Platform) (r : Request) : Op → Request
  | .pathParam _ _ => r
  | .queryStr _ _ => r
  | .queryStrs _ _ => r
  | .header _ _ => r
  | .rawBody => r
  | .jsonBody =>
    match BaseRequest.getJsonBody pf r with
    | .ok (_, r') => r'
    | .error _ => r
  | .input key d =>
    match BaseRequest.getInput pf r key d with
    | .ok (_, r') => r'
    | .error _ => r
  | .inputs keys d =>
    match BaseRequest.getInputs pf r keys d with
    | .ok (_, r') => r'
    | .error _ => r
  | .validate v source =>
    match BaseRequest.validate pf r v source with
    | .ok (_, r') => r'
    | .error _ => r

/-- A whole sequence of accessor calls. -/
def runOps (pf : Platform) (r : Request) (ops : List Op) : Request :=
  ops.foldl (runOp pf) r

/-- A gateway response envelope. -/
structure ResponseEnvelope where
  statusCode : Nat
  headers : Option (List (String × String))
  body : String

/-- `mergeHeaders` (`response/shared.ts`): the JS spread
`{...base, ...extra}` — entries of `extra` overwrite entries of `base`. -/
def mergeHeaders (base : Option (List (String × String)))
    (extra : List (String × String)) : List (String × String) :=
  extra.foldl (fun acc kv => recordSet acc kv.1 kv.2) (base.getD [])

/-- `createRedirectResponse`: empty body, caller headers merged with a
`Location` entry for the given location. -/
def createRedirectResponse (location : String) (statusCode : Nat)
    (headers : Option (List (String × String))) : ResponseEnvelope where
  statusCode := statusCode
  headers := some (mergeHeaders headers [("Location", location)])
  body := ""

/-- Extracts the value component of a successful accessor call. -/
def resultValue {α : Type} : Except RequestError (α × Request) → Option α
  | .ok (v, _) => some v
  | .error _ => none

theorem jsLookup_recordSet_self {α : Type} (m : List (String × α)) (key : String)
    (v : α) : jsLookup (recordSet m key v) key = some v := by
  induction m with
  | nil => simp [recordSet, jsLookup]
  | cons kv rest ih =>
    cases kv with
    | mk k w =>
      by_cases h : k = key
      · simp [recordSet, jsLookup, h]
      · simp [recordSet, jsLookup, h, ih]

theorem jsLookup_recordSet_ne {α : Type} (m : List (String × α)) (key key' : String)
    (v : α) (h : key' ≠ key) :
    jsLookup (recordSet m key v) key' = jsLookup m key' := by
  induction m with
  | nil => simp [recordSet, jsLookup, Ne.symm h]
  | cons kv rest ih =>
    cases kv with
    | mk k w =>
      by_cases hk : k = key
      · subst hk
        simp [recordSet, jsLookup, Ne.symm h]
      · by_cases hk' : k = key'
        · simp [recordSet, jsLookup, hk, hk', h]
        · simp [recordSet, jsLookup, hk, hk', ih]

theorem jsLookup_foldl_recordSet_not_mem {α β : Type} (f : String → α)
    (P : List (String × β)) (init : List (String × α)) (key : String)
    (h : key ∉ P.map Prod.fst) :
    jsLookup (P.foldl (fun m kv => recordSet m kv.1 (f kv.1)) init) key =
      jsLookup init key := by
  induction P generalizing init with
  | nil => rfl
  | cons kv rest ih =>
    simp only [List.map_cons, List.mem_cons, not_or] at h
    rw [List.foldl_cons, ih _ h.2, jsLookup_recordSet_ne _ _ _ _ h.1]

theorem jsLookup_foldl_recordSet_mem {α β : Type} (f : String → α)
    (P : List (String × β)) (init : List (String × α)) (key : String)
    (h : key ∈ P.map Prod.fst) :
    jsLookup (P.foldl (fun m kv => recordSet m kv.1 (f kv.1)) init) key =
      some (f key) := by
  induction P generalizing init with
  | nil => simp at h
  | cons kv rest ih =>
    rw [List.foldl_cons]
    by_cases hr : key ∈ rest.map Prod.fst
    · exact ih _ hr
    · simp only [List.map_cons, List.mem_cons] at h
      rcases h with h | h
    
      · rw [jsLookup_foldl_recordSet_not_mem f rest _ key hr, h,
          jsLookup_recordSet_self]
      · exact absurd h hr

theorem foldl_congr_of_mem {α β : Type} (g g' : α → β → α) (l : List β) (init : α)
    (h : ∀ b ∈ l, ∀ a, g a b = g' a b) : l.foldl g init = l.foldl g' init := by
  induction l generalizing init with
  | nil => rfl
  | cons b rest ih =>
    rw [List.foldl_cons, List.foldl_cons, h b (List.mem_cons_self b rest) init]
    exact ih _ (fun x hx a => h x (List.mem_cons_of_mem b hx) a)

theorem mem_keys_iff_getAll_ne_nil (P : List (String × String)) (key : String) :
    key ∈ P.map Prod.fst ↔ urlSearchParamsGetAll P key ≠ [] := by
  constructor
  · intro h
    rcases List.mem_map.mp h with ⟨kv, hkv, hfst⟩
    refine List.ne_nil_of_mem (a := kv.2) ?_
    refine List.mem_filterMap.mpr ⟨kv, hkv, ?_⟩
    simp [hfst]
  · intro h
    rcases List.exists_mem_of_ne_nil _ h with ⟨v, hv⟩
    rcases List.mem_filterMap.mp hv with ⟨p, hp, hpv⟩
    by_cases hk : p.1 = key
    · exact List.mem_map.mpr ⟨p, hp, hk⟩
    · simp [hk] at hpv

theorem getAll_ne_nil_of_mem {P : List (String × String)} {kv : String × String}
    (h : kv ∈ P) : urlSearchParamsGetAll P kv.1 ≠ [] :=
  (mem_keys_iff_getAll_ne_nil P kv.1).mp (List.mem_map.mpr ⟨kv, h, rfl⟩)

theorem jsLookup_parseFormBody (raw : String) (key : String) :
    jsLookup (parseFormBody raw) key =
      if urlSearchParamsGetAll (urlSearchParamsEntries raw) key = [] then none
      else some ((urlSearchParamsGetAll (urlSearchParamsEntries raw) key).getLast?.getD "") := by
  unfold parseFormBody
  by_cases h : urlSearchParamsGetAll (urlSearchParamsEntries raw) key = []
  · rw [if_pos h]
    rw [jsLookup_foldl_recordSet_not_mem
      (fun k => (urlSearchParamsGetAll (urlSearchParamsEntries raw) k).getLast?.getD "")
      _ _ _ (fun hm => ((mem_keys_iff_getAll_ne_nil _ _).mp hm) h)]
    rfl
  · rw [if_neg h]
    exact jsLookup_foldl_recordSet_mem
      (fun k => (urlSearchParamsGetAll (urlSearchParamsEntries raw) k).getLast?.getD "")
      _ _ _ ((mem_keys_iff_getAll_ne_nil _ _).mpr h)

theorem jsLookup_parseRawQuery (raw : String) (key : String) :
    jsLookup (parseRawQuery raw) key =
      if urlSearchParamsGetAll (urlSearchParamsEntries raw) key = [] then none
      else some (String.intercalate ","
        (urlSearchParamsGetAll (urlSearchParamsEntries raw) key)) := by
  by_cases hraw : raw = ""
  · subst hraw
    have hent : urlSearchParamsEntries "" = [] := rfl
    simp [parseRawQuery, hent, urlSearchParamsGetAll, jsLookup]
  · unfold parseRawQuery
    rw [if_neg hraw]
    have hcong := foldl_congr_of_mem
      (fun map kv =>
        let allValues := urlSearchParamsGetAll (urlSearchParamsEntries raw) kv.1
        if allValues.length = 0 then map
        else recordSet map kv.1 (String.intercalate "," allValues))
      (fun map kv => recordSet map kv.1
        (String.intercalate "," (urlSearchParamsGetAll (urlSearchParamsEntries raw) kv.1)))
      (urlSearchParamsEntries raw) []
      (by
        intro kv hkv acc
        have hne := getAll_ne_nil_of_mem hkv
        simp only []
        rw [if_neg (by simpa [List.length_eq_zero] using hne)])
    rw [hcong]
    by_cases h : urlSearchParamsGetAll (urlSearchParamsEntries raw) key = []
    · rw [if_pos h]
      rw [jsLookup_foldl_recordSet_not_mem
        (fun k => String.intercalate "," (urlSearchParamsGetAll (urlSearchParamsEntries raw) k))
        _ _ _ (fun hm => ((mem_keys_iff_getAll_ne_nil _ _).mp hm) h)]
      rfl
    · rw [if_neg h]
      exact jsLookup_foldl_recordSet_mem
        (fun k => String.intercalate "," (urlSearchParamsGetAll (urlSearchParamsEntries raw) k))
        _ _ _ ((mem_keys_iff_getAll_ne_nil _ _).mpr h)

theorem ensure_of_cache_some (pf : Platform) (r : Request) (pb : ParsedBody)
    (h : r.cache = some pb) : BaseRequest.ensureParsedBody pf r = .ok (pb, r) := by
  unfold BaseRequest.ensureParsedBody
  rw [h]

theorem ensure_ok_fields (pf : Platform) (r : Request) (pb : ParsedBody)
    (r' : Request) (h : BaseRequest.ensureParsedBody pf r = .ok (pb, r')) :
    r'.model = r.model ∧ r'.cache = some pb := by
  unfold BaseRequest.ensureParsedBody at h
  repeat' split at h
  all_goals cases h
  all_goals simp_all

theorem ensure_idem (pf : Platform) (r : Request) (pb : ParsedBody)
    (r' : Request) (h : BaseRequest.ensureParsedBody pf r = .ok (pb, r')) :
    BaseRequest.ensureParsedBody pf r' = .ok (pb, r') :=
  ensure_of_cache_some pf r' pb (ensure_ok_fields pf r pb r' h).2

theorem ensure_ok_of_ctype_ne (pf : Platform) (r : Request)
    (h : resolveContentType r.model ≠ some "application/json") :
    ∃ pb r', BaseRequest.ensureParsedBody pf r = .ok (pb, r') := by
  unfold BaseRequest.ensureParsedBody
  cases hc : r.cache with
  | some pb => exact ⟨pb, r, rfl⟩
  | none =>
    cases hrb : BaseRequest.getRawBody pf r.model with
    | none => exact ⟨.empty, _, rfl⟩
    | some rawBody =>
      dsimp only
      by_cases he : rawBody = ""
      · exact ⟨.empty, _, by rw [if_pos he]⟩
      · rw [if_neg he, if_neg h]
        by_cases hf : resolveContentType r.model = some "application/x-www-form-urlencoded"
        · rw [if_pos hf]
          exact ⟨_, _, rfl⟩
        · rw [if_neg hf]
          exact ⟨_, _, rfl⟩

theorem ensure_json_fail (pf : Platform) (r : Request) (raw msg : String)
    (hc : r.cache = none) (hrb : BaseRequest.getRawBody pf r.model = some raw)
    (hne : raw ≠ "") (hct : resolveContentType r.model = some "application/json")
    (hp : pf.jsonParse raw = .error msg) :
    BaseRequest.ensureParsedBody pf r = .error (.bodyParse msg) := by
  simp [BaseRequest.ensureParsedBody, hc, hrb, hne, hct, hp]

theorem ensure_json_ok (pf : Platform) (r : Request) (raw : String) (v : Json)
    (hc : r.cache = none) (hrb : BaseRequest.getRawBody pf r.model = some raw)
    (hne : raw ≠ "") (hct : resolveContentType r.model = some "application/json")
    (hp : pf.jsonParse raw = .ok v) :
    BaseRequest.ensureParsedBody pf r = .ok (.json v, { r with cache := some (.json v) }) := by
  simp [BaseRequest.ensureParsedBody, hc, hrb, hne, hct, hp]

theorem ensure_form (pf : Platform) (r : Request) (raw : String)
    (hc : r.cache = none) (hrb : BaseRequest.getRawBody pf r.model = some raw)
    (hne : raw ≠ "")
    (hct : resolveContentType r.model = some "application/x-www-form-urlencoded") :
    BaseRequest.ensureParsedBody pf r =
      .ok (.form (parseFormBody raw), { r with cache := some (.form (parseFormBody raw)) }) := by
  simp [BaseRequest.ensureParsedBody, hc, hrb, hne, hct]

theorem scanEntries_append_no_match {α : Type} (pre rest : List (String × α))
    (t : String) (h : ∀ p ∈ pre, jsToLower p.1 ≠ t) :
    scanEntries (pre ++ rest) t = scanEntries rest t := by
  induction pre with
  | nil => rfl
  | cons p ps ih =>
    cases p with
    | mk n v =>
      simp only [List.cons_append, scanEntries,
        if_neg (h (n, v) (List.mem_cons_self _ _))]
      exact ih (fun q hq => h q (List.mem_cons_of_mem _ hq))

/-- The HTTP-shaped event of the duplicated-query example. -/
def httpQueryEvent : ProxyEventV2 where
  version := "2.0"
  rawPath := "/things"
  rawQueryString := some "filter=one&filter=two&single=only"
  headers := some []
  queryStringParameters := some [("filter", some "one,two"), ("single", some "only")]
  pathParameters := none
  body := none
  isBase64Encoded := false
  method := "GET"
  timeEpoch := none

/-- The REST-shaped event of the multi-value query example. -/
def restQueryEvent : ProxyEventV1 where
  httpMethod := "GET"
  path := "/"
  headers := some []
  multiValueHeaders := some []
  queryStringParameters := some [("search", some "single"), ("other", some "one")]
  multiValueQueryStringParameters := some [("search", some ["first", "second"])]
  pathParameters := none
  body := none
  isBase64Encoded := false
  requestTimeEpoch := none

/-- C3: the detector classifies HTTP first (`version == "2.0"` or a
`rawPath` field), then REST (`httpMethod` and `path` both present), else
raises `UnsupportedEventShape`; an event satisfying both sets of
discriminants is classified HTTP, never REST. -/
theorem claim3_detect_order (e : RawEvent) :
    ((e.version = some "2.0" ∨ e.rawPath.isSome) → detectEventKind e = .ok .v2) ∧
    (e.version ≠ some "2.0" → e.rawPath = none → e.httpMethod.isSome → e.path.isSome →
      detectEventKind e = .ok .v1) ∧
    (e.version ≠ some "2.0" → e.rawPath = none →
      (e.httpMethod = none ∨ e.path = none) →
      detectEventKind e = .error (.unsupportedEvent "Unsupported event shape")) ∧
    ((e.version = some "2.0" ∨ e.rawPath.isSome) → detectEventKind e ≠ .ok .v1) := by
  refine ⟨fun h => ?_, fun hv hr hm hp => ?_, fun hv hr hmp => ?_, fun h => ?_⟩
  · rw [detectEventKind, if_pos h]
  · have hcond : ¬(e.version = some "2.0" ∨ e.rawPath.isSome) := by
      rintro (h | h)
      · exact hv h
      · rw [hr] at h
        simp at h
    rw [detectEventKind, if_neg hcond, if_pos ⟨hm, hp⟩]
  · have hcond : ¬(e.version = some "2.0" ∨ e.rawPath.isSome) := by
      rintro (h | h)
      · exact hv h
      · rw [hr] at h
        simp at h
    have hcond2 : ¬(e.httpMethod.isSome ∧ e.path.isSome) := by
      rintro ⟨hm, hp⟩
      rcases hmp with h | h
      · rw [h] at hm
        simp at hm
      · rw [h] at hp
        simp at hp
    rw [detectEventKind, if_neg hcond, if_neg hcond2]
  · rw [detectEventKind, if_pos h]
    simp

/-- C3 witness: a both-discriminant-free REST event classifies `v1`, an
event with a version marker classifies `v2`. -/
theorem claim3_detect_order_witness :
    detectEventKind ⟨some "2.0", none, some "POST", some "/"⟩ = .ok .v2 ∧
    detectEventKind ⟨none, none, some "GET", some "/"⟩ = .ok .v1 :=
  ⟨(claim3_detect_order _).1 (Or.inl rfl),
   (claim3_detect_order _).2.1 (by decide) rfl rfl rfl⟩

/-- C1: on an HTTP-shaped event `getQueryStr` prefers the raw-query-derived
mapping, in which all values of a duplicated key are comma-joined, and
falls back to the gateway single-value mapping only when the key is absent
from the raw-derived mapping; on the example raw query string it yields
`"one,two"` and `"only"`. -/
theorem claim1_http_getQueryStr (e : ProxyEventV2) (key : String) (d : Option String) :
    (urlSearchParamsGetAll (urlSearchParamsEntries (e.rawQueryString.getD "")) key ≠ [] →
      HttpApiRequest.getQueryStr e key d =
        some (String.intercalate ","
          (urlSearchParamsGetAll (urlSearchParamsEntries (e.rawQueryString.getD "")) key))) ∧
    (urlSearchParamsGetAll (urlSearchParamsEntries (e.rawQueryString.getD "")) key = [] →
      (∀ v, jsLookup (e.queryStringParameters.getD []) key = some (some v) →
        HttpApiRequest.getQueryStr e key d = some v) ∧
      (jsLookup (e.queryStringParameters.getD []) key = some none →
        HttpApiRequest.getQueryStr e key d = d) ∧
      (jsLookup (e.queryStringParameters.getD []) key = none →
        HttpApiRequest.getQueryStr e key d = d)) ∧
    HttpApiRequest.getQueryStr httpQueryEvent "filter" none = some "one,two" ∧
    HttpApiRequest.getQueryStr httpQueryEvent "single" none = some "only" := by
  have hchar := jsLookup_parseRawQuery (e.rawQueryString.getD "") key
  refine ⟨fun hne => ?_, fun hnil => ?_, by decide, by decide⟩
  · have hlook : jsLookup (HttpApiRequest.rawQueryMap e) key =
        some (String.intercalate ","
          (urlSearchParamsGetAll (urlSearchParamsEntries (e.rawQueryString.getD "")) key)) := by
      rw [HttpApiRequest.rawQueryMap, hchar, if_neg hne]
    simp [HttpApiRequest.getQueryStr, BaseRequest.getQueryStr, HttpApiRequest.toModel,
      HttpApiRequest.getQueryParamValue, hlook, jsOr]
  · have hlook : jsLookup (HttpApiRequest.rawQueryMap e) key = none := by
      rw [HttpApiRequest.rawQueryMap, hchar, if_pos hnil]
    refine ⟨fun v hv => ?_, fun hv => ?_, fun hv => ?_⟩
    · simp [HttpApiRequest.getQueryStr, BaseRequest.getQueryStr, HttpApiRequest.toModel,
        HttpApiRequest.getQueryParamValue, hlook, hv, jsHasKey, jsOr, Option.join]
    · simp [HttpApiRequest.getQueryStr, BaseRequest.getQueryStr, HttpApiRequest.toModel,
        HttpApiRequest.getQueryParamValue, hlook, hv, jsHasKey, jsOr, Option.join]
    · simp [HttpApiRequest.getQueryStr, BaseRequest.getQueryStr, HttpApiRequest.toModel,
        HttpApiRequest.getQueryParamValue, hlook, hv, jsHasKey, jsOr, Option.join]

/-- C1 witness: the raw-preference branch applied to the example event. -/
theorem claim1_http_getQueryStr_witness :
    HttpApiRequest.getQueryStr httpQueryEvent "filter" none = some "one,two" := by
  have h := (claim1_http_getQueryStr httpQueryEvent "filter" none).1 (by decide)
  exact h.trans (by decide)

/-- C2: on a REST-shaped event `getQueryStr` comma-joins the multi-value
mapping's entries when the key is present there with at least one entry,
else uses the single-value mapping's value with null normalized to absent
(so the default applies), else the default; `getQueryStrs` applies the
rule per key; the example yields `"first,second"` and `"one"`. -/
theorem claim2_rest_getQueryStr (e : ProxyEventV1) (key : String) (d : Option String) :
    (∀ m vs, e.multiValueQueryStringParameters = some m →
      jsLookup m key = some (some vs) → vs ≠ [] →
      RestApiRequest.getQueryStr e key d = some (String.intercalate "," vs)) ∧
    (¬(∃ m vs, e.multiValueQueryStringParameters = some m ∧
        jsLookup m key = some (some vs) ∧ vs ≠ []) →
      (∀ sm v, e.queryStringParameters = some sm → jsLookup sm key = some (some v) →
        RestApiRequest.getQueryStr e key d = some v) ∧
      (∀ sm, e.queryStringParameters = some sm → jsLookup sm key = some none →
        RestApiRequest.getQueryStr e key d = d) ∧
      (∀ sm, e.queryStringParameters = some sm → jsLookup sm key = none →
        RestApiRequest.getQueryStr e key d = d) ∧
      (e.queryStringParameters = none → RestApiRequest.getQueryStr e key d = d)) ∧
    RestApiRequest.getQueryStr restQueryEvent "search" none = some "first,second" ∧
    RestApiRequest.getQueryStrs restQueryEvent ["search", "other"] none =
      [("search", some "first,second"), ("other", some "one")] ∧
    RestApiRequest.getQueryStr restQueryEvent "missing" (some "n/a") = some "n/a" := by
  refine ⟨fun m vs hm hl hvs => ?_, fun hno => ?_, by decide, by decide, by decide⟩
  · have hpos : vs.length > 0 := List.length_pos.mpr hvs
    simp [RestApiRequest.getQueryStr, BaseRequest.getQueryStr, RestApiRequest.toModel,
      RestApiRequest.getQueryParamValue, hm, hl, hpos, jsOr]
  · have hfm : (match e.multiValueQueryStringParameters with
        | some multi =>
          match jsLookup multi key with
          | some (some vs) =>
            if vs.length > 0 then some (String.intercalate "," vs) else none
          | _ => none
        | none => none) = (none : Option String) := by
      cases hm : e.multiValueQueryStringParameters with
      | none => rfl
      | some m =>
        dsimp only
        cases hl : jsLookup m key with
        | none => rfl
        | some ov =>
          cases ov with
          | none => rfl
          | some vs =>
            by_cases hv : vs = []
            · subst hv
              simp
            · exact absurd ⟨m, vs, hm, hl, hv⟩ hno
    refine ⟨fun sm v hsm hl => ?_, fun sm hsm hl => ?_, fun sm hsm hl => ?_, fun hsm => ?_⟩
    · simp [RestApiRequest.getQueryStr, BaseRequest.getQueryStr, RestApiRequest.toModel,
        RestApiRequest.getQueryParamValue, hfm, hsm, hl, jsHasKey, jsOr, Option.join]
    · simp [RestApiRequest.getQueryStr, BaseRequest.getQueryStr, RestApiRequest.toModel,
        RestApiRequest.getQueryParamValue, hfm, hsm, hl, jsHasKey, jsOr, Option.join]
    · simp [RestApiRequest.getQueryStr, BaseRequest.getQueryStr, RestApiRequest.toModel,
        RestApiRequest.getQueryParamValue, hfm, hsm, hl, jsHasKey, jsOr, Option.join]
    · simp [RestApiRequest.getQueryStr, BaseRequest.getQueryStr, RestApiRequest.toModel,
        RestApiRequest.getQueryParamValue, hfm, hsm, jsOr]

/-- C2 witness: the multi-value join branch applied to the example event. -/
theorem claim2_rest_getQueryStr_witness :
    RestApiRequest.getQueryStr restQueryEvent "search" none = some "first,second" := by
  have h := (claim2_rest_getQueryStr restQueryEvent "search" none).1
    [("search", some ["first", "second"])] ["first", "second"] rfl (by decide) (by decide)
  exact h.trans (by decide)

/-- C9 counterexample: with a caller-supplied `Location` header, `redirect`
keeps the location argument, not the caller's header — caller headers do
not win on collision. -/
theorem claim9_redirect_counterexample :
    (createRedirectResponse "https://arg.example/" 302
      (some [("Location", "https://caller.example/")])).headers =
      some [("Location", "https://arg.example/")] ∧
    ("https://arg.example/" : String) ≠ "https://caller.example/" :=
  ⟨by decide, by decide⟩

/-- C9 (amended): `redirect(location, status, headers)` produces an empty
body, the given status, and the caller headers merged with a `Location`
entry in which the location argument wins on key collision; all
non-Location caller headers are preserved. -/
theorem claim9_redirect_amended (location : String) (status : Nat)
    (headers : Option (List (String × String))) :
    (createRedirectResponse location status headers).body = "" ∧
    (createRedirectResponse location status headers).statusCode = status ∧
    ∃ hs, (createRedirectResponse location status headers).headers = some hs ∧
      jsLookup hs "Location" = some location ∧
      ∀ k, k ≠ "Location" → jsLookup hs k = jsLookup (headers.getD []) k := by
  refine ⟨rfl, rfl, mergeHeaders headers [("Location", location)], rfl, ?_, ?_⟩
  · exact jsLookup_recordSet_self _ _ _
  · intro k hk
    exact jsLookup_recordSet_ne _ _ _ _ hk

/-- C9 witness: the amended statement applied at a concrete redirect. -/
theorem claim9_redirect_amended_witness :
    (createRedirectResponse "https://arg.example/" 302
      (some [("x-extra", "1")])).body = "" ∧
    ∃ hs, (createRedirectResponse "https://arg.example/" 302
        (some [("x-extra", "1")])).headers = some hs ∧
      jsLookup hs "Location" = some "https://arg.example/" ∧
      jsLookup hs "x-extra" = some "1" := by
  obtain ⟨hb, hst, hs, hhs, hloc, hpres⟩ :=
    claim9_redirect_amended "https://arg.example/" 302 (some [("x-extra", "1")])
  refine ⟨hb, hs, hhs, hloc, ?_⟩
  rw [hpres "x-extra" (by decide)]
  decide

/-- A REST event whose single-value header entry is null while the
multi-value map holds a real value under the same name. -/
def nullHeaderEvent : ProxyEventV1 where
  httpMethod := "GET"
  path := "/"
  headers := some [("X-Token", none)]
  multiValueHeaders := some [("X-Token", some ["real-value"])]
  queryStringParameters := none
  multiValueQueryStringParameters := none
  pathParameters := none
  body := none
  isBase64Encoded := false
  requestTimeEpoch := none

/-- C10: when the REST single-value header map's first case-insensitive
match for the requested name carries a null value, `getHeader` returns the
default; the scan stops there and the multi-value map is never consulted,
whatever it contains. -/
theorem claim10_rest_null_header (e : ProxyEventV1)
    (pre post : List (String × Option String)) (n name : String) (d : Option String)
    (hh : e.headers = some (pre ++ (n, none) :: post))
    (hpre : ∀ p ∈ pre, jsToLower p.1 ≠ jsToLower name)
    (hn : jsToLower n = jsToLower name) :
    RestApiRequest.getHeader e name d = d := by
  have hscan : scanEntries (pre ++ (n, (none : Option String)) :: post)
      (jsToLower name) = some none := by
    rw [scanEntries_append_no_match pre _ _ hpre]
    simp [scanEntries, hn]
  simp [RestApiRequest.getHeader, BaseRequest.getHeader, RestApiRequest.toModel,
    RestApiRequest.headerLookup, hh, hscan, jsOr]

/-- C10 witness: the null single-value entry hides the non-null
multi-value entry and the default is returned. -/
theorem claim10_rest_null_header_witness :
    RestApiRequest.getHeader nullHeaderEvent "x-token" (some "fallback") =
      some "fallback" :=
  claim10_rest_null_header nullHeaderEvent [] [] "X-Token" "x-token" (some "fallback")
    rfl (by simp) (by decide)

/-- The value component `getInput` produces for a given parsed body
(characterization used by the lemmas below). -/
def inputLookup (pb : ParsedBody) (key : String) (d : Option Json) : Option Json :=
  match pb with
  | .json v => if isObjectLike v then jsNullishOr (jsProp v key) d else d
  | .form m => jsNullishOr ((jsLookup m key).map Json.str) d
  | _ => d

theorem getInput_eq (pf : Platform) (r : Request) (pb : ParsedBody) (r' : Request)
    (key : String) (d : Option Json)
    (h : BaseRequest.ensureParsedBody pf r = .ok (pb, r')) :
    BaseRequest.getInput pf r key d = .ok (inputLookup pb key d, r') := by
  simp only [BaseRequest.getInput, h]
  cases pb with
  | json v => by_cases hv : isObjectLike v <;> simp [inputLookup, hv]
  | empty => simp [inputLookup]
  | form m => simp [inputLookup]
  | text s => simp [inputLookup]

theorem jsNullishOr_some_ne_null (w : Json) (d : Option Json) (h : w ≠ .null) :
    jsNullishOr (some w) d = some w := by
  cases w with
  | null => exact absurd rfl h
  | bool b => rfl
  | num n => rfl
  | str s => rfl
  | arr xs => rfl
  | obj fs => rfl

theorem getInputsAux_ok_fixed (pf : Platform) (d : Option Json) (pb : ParsedBody)
    (r' : Request) (hid : BaseRequest.ensureParsedBody pf r' = .ok (pb, r')) :
    ∀ (ks : List String) (acc : List (String × Option Json)),
      ∃ res, BaseRequest.getInputsAux pf d ks acc r' = .ok (res, r') := by
  intro ks
  induction ks with
  | nil => exact fun acc => ⟨acc, rfl⟩
  | cons k0 rest ih =>
    intro acc
    obtain ⟨res, hres⟩ := ih (recordSet acc k0 (inputLookup pb k0 d))
    exact ⟨res, by simp only [BaseRequest.getInputsAux, getInput_eq pf r' pb r' k0 d hid, hres]⟩

theorem getInputsAux_lookup (pf : Platform) (d : Option Json) (pb : ParsedBody)
    (r' : Request) (hid : BaseRequest.ensureParsedBody pf r' = .ok (pb, r')) :
    ∀ (ks : List String) (acc res : List (String × Option Json)) (rend : Request),
      BaseRequest.getInputsAux pf d ks acc r' = .ok (res, rend) →
      rend = r' ∧
      ∀ k, (k ∈ ks → jsLookup res k = some (inputLookup pb k d)) ∧
        (k ∉ ks → jsLookup res k = jsLookup acc k) := by
  intro ks
  induction ks with
  | nil =>
    intro acc res rend h
    simp only [BaseRequest.getInputsAux] at h
    cases h
    exact ⟨rfl, fun k => ⟨fun hk => by simp at hk, fun _ => rfl⟩⟩
  | cons k0 rest ih =>
    intro acc res rend h
    simp only [BaseRequest.getInputsAux, getInput_eq pf r' pb r' k0 d hid] at h
    obtain ⟨hrend, hres⟩ := ih (recordSet acc k0 (inputLookup pb k0 d)) res rend h
    refine ⟨hrend, fun k => ⟨fun hk => ?_, fun hk => ?_⟩⟩
    · by_cases hkr : k ∈ rest
      · exact (hres k).1 hkr
      · have hk0 : k = k0 := by
          rcases List.mem_cons.mp hk with h' | h'
          · exact h'
          · exact absurd h' hkr
        rw [(hres k).2 hkr, hk0, jsLookup_recordSet_self]
    · have hk0 : k ≠ k0 := fun hh => hk (hh ▸ List.mem_cons_self k0 rest)
      have hkr : k ∉ rest := fun hh => hk (List.mem_cons_of_mem _ hh)
      rw [(hres k).2 hkr, jsLookup_recordSet_ne _ _ _ _ hk0]

/-- The value component `getJsonBody` produces for a given parsed body. -/
def jsonBodyValue : ParsedBody → Option Json
  | .json v => some v
  | _ => none

theorem getJsonBody_eq (pf : Platform) (r : Request) (pb : ParsedBody) (r' : Request)
    (h : BaseRequest.ensureParsedBody pf r = .ok (pb, r')) :
    BaseRequest.getJsonBody pf r = .ok (jsonBodyValue pb, r') := by
  simp only [BaseRequest.getJsonBody, h]
  cases pb <;> simp [jsonBodyValue]

theorem runOp_preserves (pf : Platform) (r : Request) (op : Op) :
    (runOp pf r op).model = r.model ∧
    (∀ pb, r.cache = some pb → runOp pf r op = r) := by
  cases op with
  | pathParam k d => exact ⟨rfl, fun _ _ => rfl⟩
  | queryStr k d => exact ⟨rfl, fun _ _ => rfl⟩
  | queryStrs ks d => exact ⟨rfl, fun _ _ => rfl⟩
  | header n d => exact ⟨rfl, fun _ _ => rfl⟩
  | rawBody => exact ⟨rfl, fun _ _ => rfl⟩
  | jsonBody =>
    constructor
    · cases hE : BaseRequest.ensureParsedBody pf r with
      | error e => simp [runOp, BaseRequest.getJsonBody, hE]
      | ok p =>
        simp only [runOp, getJsonBody_eq pf r p.1 p.2 hE]
        exact (ensure_ok_fields pf r p.1 p.2 (by rw [hE])).1
    · intro pb hc
      simp [runOp, getJsonBody_eq pf r pb r (ensure_of_cache_some pf r pb hc)]
  | input key d =>
    constructor
    · cases hE : BaseRequest.ensureParsedBody pf r with
      | error e => simp [runOp, BaseRequest.getInput, hE]
      | ok p =>
        simp only [runOp, getInput_eq pf r p.1 p.2 key d (by rw [hE])]
        exact (ensure_ok_fields pf r p.1 p.2 (by rw [hE])).1
    · intro pb hc
      simp [runOp, getInput_eq pf r pb r key d (ensure_of_cache_some pf r pb hc)]
  | inputs keys d =>
    constructor
    · cases keys with
      | nil => rfl
      | cons k0 rest =>
        cases hE : BaseRequest.ensureParsedBody pf r with
        | error e =>
          simp [runOp, BaseRequest.getInputs, BaseRequest.getInputsAux,
            BaseRequest.getInput, hE]
        | ok p =>
          have hid := ensure_idem pf r p.1 p.2 (by rw [hE])
          obtain ⟨res, hres⟩ := getInputsAux_ok_fixed pf d p.1 p.2 hid rest
            (recordSet [] k0 (inputLookup p.1 k0 d))
          simp only [runOp, BaseRequest.getInputs, BaseRequest.getInputsAux,
            getInput_eq pf r p.1 p.2 k0 d (by rw [hE]), hres]
          exact (ensure_ok_fields pf r p.1 p.2 (by rw [hE])).1
    · intro pb hc
      cases keys with
      | nil => rfl
      | cons k0 rest =>
        have hid := ensure_of_cache_some pf r pb hc
        obtain ⟨res, hres⟩ := getInputsAux_ok_fixed pf d pb r hid rest
          (recordSet [] k0 (inputLookup pb k0 d))
        simp [runOp, BaseRequest.getInputs, BaseRequest.getInputsAux,
          getInput_eq pf r pb r k0 d hid, hres]
  | validate v source =>
    constructor
    · cases source with
      | query =>
        cases hV : BaseRequest.runValidator v
            (.strMap (r.model.queryStringParameters.getD [])) with
        | ok out => simp [runOp, BaseRequest.validate, hV]
        | error e => simp [runOp, BaseRequest.validate, hV]
      | path =>
        cases hV : BaseRequest.runValidator v
            (.strMap (r.model.pathParameters.getD [])) with
        | ok out => simp [runOp, BaseRequest.validate, hV]
        | error e => simp [runOp, BaseRequest.validate, hV]
      | body =>
        cases hE : BaseRequest.ensureParsedBody pf r with
        | error e => simp [runOp, BaseRequest.validate, BaseRequest.getJsonBody, hE]
        | ok p =>
          have hjb := getJsonBody_eq pf r p.1 p.2 (by rw [hE])
          cases hV : BaseRequest.runValidator v (bodyValidatorInput (jsonBodyValue p.1)) with
          | ok out =>
            simp only [runOp, BaseRequest.validate, hjb, hV]
            exact (ensure_ok_fields pf r p.1 p.2 (by rw [hE])).1
          | error e => simp [runOp, BaseRequest.validate, hjb, hV]
    · intro pb hc
      cases source with
      | query =>
        cases hV : BaseRequest.runValidator v
            (.strMap (r.model.queryStringParameters.getD [])) with
        | ok out => simp [runOp, BaseRequest.validate, hV]
        | error e => simp [runOp, BaseRequest.validate, hV]
      | path =>
        cases hV : BaseRequest.runValidator v
            (.strMap (r.model.pathParameters.getD [])) with
        | ok out => simp [runOp, BaseRequest.validate, hV]
        | error e => simp [runOp, BaseRequest.validate, hV]
      | body =>
        have hjb := getJsonBody_eq pf r pb r (ensure_of_cache_some pf r pb hc)
        cases hV : BaseRequest.runValidator v (bodyValidatorInput (jsonBodyValue pb)) with
        | ok out => simp [runOp, BaseRequest.validate, hjb, hV]
        | error e => simp [runOp, BaseRequest.validate, hjb, hV]

/-- A platform whose JSON parser always fails (the parser is irrelevant to
non-JSON requests; base64 decoding is never reached in the examples). -/
def trivialPlatform : Platform where
  jsonParse := fun _ => .error "Unexpected token"
  base64ToUtf8 := fun s => s

/-- A REST event carrying a malformed JSON body. -/
def jsonBadEvent : ProxyEventV1 where
  httpMethod := "POST"
  path := "/"
  headers := some [("Content-Type", some "application/json")]
  multiValueHeaders := none
  queryStringParameters := none
  multiValueQueryStringParameters := none
  pathParameters := none
  body := some "\x7binvalid"
  isBase64Encoded := false
  requestTimeEpoch := none

/-- A platform reproducing the host parser's failure on the malformed body. -/
def failPlatform : Platform where
  jsonParse := fun _ => .error "Unexpected token i in JSON at position 1"
  base64ToUtf8 := fun s => s

/-- C4: with a non-empty raw body, resolved content type exactly
`application/json`, and an unparseable body, every body-touching accessor
raises `BodyParseFailure` with the parser's message; the failure leaves the
instance unchanged (never cached), so a subsequent access fails
identically; no other resolved content type ever raises it. -/
theorem claim4_body_parse_failure (pf : Platform) (r : Request) (raw msg key k0 : String)
    (ks : List String) (d : Option Json) :
    (r.cache = none → BaseRequest.getRawBody pf r.model = some raw → raw ≠ "" →
      resolveContentType r.model = some "application/json" →
      pf.jsonParse raw = .error msg →
      BaseRequest.getInput pf r key d = .error (.bodyParse msg) ∧
      BaseRequest.getInputs pf r (k0 :: ks) d = .error (.bodyParse msg) ∧
      BaseRequest.getJsonBody pf r = .error (.bodyParse msg) ∧
      runOp pf r (.input key d) = r ∧
      BaseRequest.getInput pf (runOp pf r (.input key d)) key d =
        .error (.bodyParse msg)) ∧
    (resolveContentType r.model ≠ some "application/json" →
      ∀ m, BaseRequest.getInput pf r key d ≠ .error (.bodyParse m) ∧
        BaseRequest.getInputs pf r ks d ≠ .error (.bodyParse m) ∧
        BaseRequest.getJsonBody pf r ≠ .error (.bodyParse m)) := by
  constructor
  · intro hc hrb hne hct hp
    have hens := ensure_json_fail pf r raw msg hc hrb hne hct hp
    have h1 : BaseRequest.getInput pf r key d = .error (.bodyParse msg) := by
      simp [BaseRequest.getInput, hens]
    have h3 : BaseRequest.getJsonBody pf r = .error (.bodyParse msg) := by
      simp [BaseRequest.getJsonBody, hens]
    have h4 : runOp pf r (.input key d) = r := by
      simp [runOp, h1]
    refine ⟨h1, ?_, h3, h4, by rw [h4]; exact h1⟩
    have h2 : BaseRequest.getInput pf r k0 d = .error (.bodyParse msg) := by
      simp [BaseRequest.getInput, hens]
    simp [BaseRequest.getInputs, BaseRequest.getInputsAux, h2]
  · intro hct m
    obtain ⟨pb, r', hok⟩ := ensure_ok_of_ctype_ne pf r hct
    refine ⟨by simp [getInput_eq pf r pb r' key d hok], ?_,
      by simp [getJsonBody_eq pf r pb r' hok]⟩
    cases ks with
    | nil => simp [BaseRequest.getInputs, BaseRequest.getInputsAux]
    | cons a rest =>
      have hid := ensure_idem pf r pb r' hok
      obtain ⟨res, hres⟩ := getInputsAux_ok_fixed pf d pb r' hid rest
        (recordSet [] a (inputLookup pb a d))
      simp [BaseRequest.getInputs, BaseRequest.getInputsAux,
        getInput_eq pf r pb r' a d hok, hres]

/-- C4 witness: the malformed-JSON example fails with the parser's message
on `getInput` and again on the second access. -/
theorem claim4_body_parse_failure_witness :
    BaseRequest.getInput failPlatform (RestApiRequest.toRequest jsonBadEvent)
      "anything" none =
      .error (.bodyParse "Unexpected token i in JSON at position 1") ∧
    BaseRequest.getInput failPlatform
      (runOp failPlatform (RestApiRequest.toRequest jsonBadEvent) (.input "anything" none))
      "anything" none =
      .error (.bodyParse "Unexpected token i in JSON at position 1") := by
  have h := (claim4_body_parse_failure failPlatform
    (RestApiRequest.toRequest jsonBadEvent) "\x7binvalid"
    "Unexpected token i in JSON at position 1" "anything" "k" [] none).1
    rfl (by decide) (by decide) (by decide) rfl
  exact ⟨h.1, h.2.2.2.2⟩

/-- An HTTP event carrying a urlencoded form body with a duplicated key. -/
def formBodyEvent : ProxyEventV2 where
  version := "2.0"
  rawPath := "/"
  rawQueryString := some ""
  headers := some [("content-type", some "application/x-www-form-urlencoded")]
  queryStringParameters := none
  pathParameters := none
  body := some "color=red&color=blue&single=one"
  isBase64Encoded := false
  method := "POST"
  timeEpoch := none

/-- C6: a non-empty body with resolved content type exactly
`application/x-www-form-urlencoded` is decoded as urlencoded pairs keeping
only the last occurrence of each duplicated key; on the example body,
`getInput("color")` is `"blue"` and `getInput("single")` is `"one"`. -/
theorem claim6_form_last_wins (pf : Platform) (r : Request) (raw key : String)
    (d : Option Json) (hc : r.cache = none)
    (hrb : BaseRequest.getRawBody pf r.model = some raw) (hne : raw ≠ "")
    (hct : resolveContentType r.model = some "application/x-www-form-urlencoded") :
    (urlSearchParamsGetAll (urlSearchParamsEntries raw) key ≠ [] →
      BaseRequest.getInput pf r key d =
        .ok (some (.str
            ((urlSearchParamsGetAll (urlSearchParamsEntries raw) key).getLast?.getD "")),
          { r with cache := some (.form (parseFormBody raw)) })) ∧
    (urlSearchParamsGetAll (urlSearchParamsEntries raw) key = [] →
      BaseRequest.getInput pf r key d =
        .ok (d, { r with cache := some (.form (parseFormBody raw)) })) ∧
    resultValue (BaseRequest.getInput trivialPlatform
      (HttpApiRequest.toRequest formBodyEvent) "color" none) =
      some (some (.str "blue")) ∧
    resultValue (BaseRequest.getInput trivialPlatform
      (HttpApiRequest.toRequest formBodyEvent) "single" none) =
      some (some (.str "one")) := by
  have hens := ensure_form pf r raw hc hrb hne hct
  have hg := getInput_eq pf r _ _ key d hens
  refine ⟨fun hvals => ?_, fun hvals => ?_, rfl, rfl⟩
  · rw [hg]
    simp only [inputLookup, jsLookup_parseFormBody, if_neg hvals, Option.map_some']
    rw [jsNullishOr_some_ne_null _ _ (fun hh => Json.noConfusion hh)]
  · rw [hg]
    simp [inputLookup, jsLookup_parseFormBody, hvals, jsNullishOr]

/-- C6 witness: the last-wins branch applied to the duplicated-key form
body. -/
theorem claim6_form_last_wins_witness :
    resultValue (BaseRequest.getInput trivialPlatform
      (HttpApiRequest.toRequest formBodyEvent) "color" (some (.str "n/a"))) =
      some (some (.str "blue")) := by
  have h := (claim6_form_last_wins trivialPlatform
    (HttpApiRequest.toRequest formBodyEvent) "color=red&color=blue&single=one"
    "color" (some (.str "n/a")) rfl (by decide) (by decide) (by decide)).1 (by decide)
  rw [h]
  rfl

/-- A platform whose JSON parser returns the example object with empty
string, zero, false and null values alongside normal ones. -/
def okPlatform : Platform where
  jsonParse := fun _ => .ok (.obj [("hello", .str "world"), ("count", .num 2),
    ("empty", .str ""), ("zero", .num 0), ("flag", .bool false), ("nil", .null)])
  base64ToUtf8 := fun s => s

/-- A REST event with a JSON content type and some body for `okPlatform`. -/
def jsonOkEvent : ProxyEventV1 where
  httpMethod := "POST"
  path := "/"
  headers := some [("content-type", some "application/json")]
  multiValueHeaders := none
  queryStringParameters := none
  multiValueQueryStringParameters := none
  pathParameters := none
  body := some "x"
  isBase64Encoded := false
  requestTimeEpoch := none

/-- C7: `getInput(key, default)` yields the default exactly on `empty` or
`text` bodies, on a `json` body whose value is not a non-null structured
value, or when the looked-up value is null/undefined; a present non-null
value — including `""`, `0` and `false` — is returned as-is; `getInputs`
applies the same rule independently per key. -/
theorem claim7_getInput_nullish (pf : Platform) (r : Request) (pb : ParsedBody)
    (r' : Request) (key : String) (d : Option Json)
    (hens : BaseRequest.ensureParsedBody pf r = .ok (pb, r')) :
    (pb = .empty → BaseRequest.getInput pf r key d = .ok (d, r')) ∧
    (∀ s, pb = .text s → BaseRequest.getInput pf r key d = .ok (d, r')) ∧
    (∀ v, pb = .json v → isObjectLike v = false →
      BaseRequest.getInput pf r key d = .ok (d, r')) ∧
    (∀ v, pb = .json v → isObjectLike v = true →
      (jsProp v key = none ∨ jsProp v key = some .null) →
      BaseRequest.getInput pf r key d = .ok (d, r')) ∧
    (∀ v w, pb = .json v → isObjectLike v = true → jsProp v key = some w →
      w ≠ .null → BaseRequest.getInput pf r key d = .ok (some w, r')) ∧
    (∀ m s, pb = .form m → jsLookup m key = some s →
      BaseRequest.getInput pf r key d = .ok (some (.str s), r')) ∧
    (∀ m, pb = .form m → jsLookup m key = none →
      BaseRequest.getInput pf r key d = .ok (d, r')) ∧
    (∀ keys res rend, BaseRequest.getInputs pf r keys d = .ok (res, rend) →
      ∀ k, k ∈ keys →
        jsLookup res k = some (inputLookup pb k d) ∧
        BaseRequest.getInput pf r k d = .ok (inputLookup pb k d, r')) := by
  refine ⟨fun hpb => ?_, fun s hpb => ?_, fun v hpb hobj => ?_, fun v hpb hobj hnul => ?_,
    fun v w hpb hobj hw hwn => ?_, fun m s hpb hl => ?_, fun m hpb hl => ?_,
    fun keys res rend hres k hk => ?_⟩
  · subst hpb
    rw [getInput_eq pf r _ _ key d hens]
    rfl
  · subst hpb
    rw [getInput_eq pf r _ _ key d hens]
    rfl
  · subst hpb
    rw [getInput_eq pf r _ _ key d hens]
    simp [inputLookup, hobj]
  · subst hpb
    rw [getInput_eq pf r _ _ key d hens]
    rcases hnul with h | h <;> simp [inputLookup, hobj, h, jsNullishOr]
  · subst hpb
    rw [getInput_eq pf r _ _ key d hens]
    simp [inputLookup, hobj, hw, jsNullishOr_some_ne_null w d hwn]
  · subst hpb
    rw [getInput_eq pf r _ _ key d hens]
    simp [inputLookup, hl, jsNullishOr]
  · subst hpb
    rw [getInput_eq pf r _ _ key d hens]
    simp [inputLookup, hl, jsNullishOr]
  · refine ⟨?_, getInput_eq pf r pb r' k d hens⟩
    cases keys with
    | nil => simp at hk
    | cons k0 rest =>
      simp only [BaseRequest.getInputs, BaseRequest.getInputsAux,
        getInput_eq pf r pb r' k0 d hens] at hres
      have hid := ensure_idem pf r pb r' hens
      obtain ⟨hrend, hlook⟩ := getInputsAux_lookup pf d pb r' hid rest
        (recordSet [] k0 (inputLookup pb k0 d)) res rend hres
      by_cases hkr : k ∈ rest
      · exact (hlook k).1 hkr
      · have hk0 : k = k0 := by
          rcases List.mem_cons.mp hk with h' | h'
          · exact h'
          · exact absurd h' hkr
        rw [(hlook k).2 hkr, hk0, jsLookup_recordSet_self]

/-- C7 witness: empty string is preserved, a null value and a missing key
yield the default. -/
theorem claim7_getInput_nullish_witness :
    resultValue (BaseRequest.getInput okPlatform (RestApiRequest.toRequest jsonOkEvent)
      "empty" (some (.str "n/a"))) = some (some (.str "")) ∧
    resultValue (BaseRequest.getInput okPlatform (RestApiRequest.toRequest jsonOkEvent)
      "nil" (some (.str "n/a"))) = some (some (.str "n/a")) ∧
    resultValue (BaseRequest.getInput okPlatform (RestApiRequest.toRequest jsonOkEvent)
      "missing" (some (.str "n/a"))) = some (some (.str "n/a")) := by
  have h5 := (claim7_getInput_nullish okPlatform (RestApiRequest.toRequest jsonOkEvent)
    (.json (.obj [("hello", .str "world"), ("count", .num 2), ("empty", .str ""),
      ("zero", .num 0), ("flag", .bool false), ("nil", .null)]))
    _ "empty" (some (.str "n/a")) rfl).2.2.2.2.1
    _ (.str "") rfl rfl rfl (fun hh => Json.noConfusion hh)
  have h4 := (claim7_getInput_nullish okPlatform (RestApiRequest.toRequest jsonOkEvent)
    (.json (.obj [("hello", .str "world"), ("count", .num 2), ("empty", .str ""),
      ("zero", .num 0), ("flag", .bool false), ("nil", .null)]))
    _ "nil" (some (.str "n/a")) rfl).2.2.2.1
    _ rfl rfl (Or.inr rfl)
  have h0 := (claim7_getInput_nullish okPlatform (RestApiRequest.toRequest jsonOkEvent)
    (.json (.obj [("hello", .str "world"), ("count", .num 2), ("empty", .str ""),
      ("zero", .num 0), ("flag", .bool false), ("nil", .null)]))
    _ "missing" (some (.str "n/a")) rfl).2.2.2.1
    _ rfl rfl (Or.inl rfl)
  refine ⟨?_, ?_, ?_⟩
  · rw [h5]
    rfl
  · rw [h4]
    rfl
  · rw [h0]
    rfl

/-- C8: over any sequence of accessor and validate calls, the wrapped
event model is never mutated; once the parsed-body cache holds a value the
instance is left exactly unchanged by every further call, and the parser
returns exactly the cached value without recomputation. -/
theorem claim8_instance_invariants (pf : Platform) (ops : List Op) (r : Request) :
    (runOps pf r ops).model = r.model ∧
    (∀ pb, r.cache = some pb → runOps pf r ops = r) ∧
    (∀ pb, (runOps pf r ops).cache = some pb →
      BaseRequest.ensureParsedBody pf (runOps pf r ops) =
        .ok (pb, runOps pf r ops)) := by
  refine ⟨?_, ?_, fun pb h => ensure_of_cache_some pf _ pb h⟩
  · induction ops generalizing r with
    | nil => rfl
    | cons op rest ih =>
      exact (ih (runOp pf r op)).trans (runOp_preserves pf r op).1
  · induction ops generalizing r with
    | nil => exact fun pb h => rfl
    | cons op rest ih =>
      intro pb h
      have h1 : runOp pf r op = r := (runOp_preserves pf r op).2 pb h
      show runOps pf (runOp pf r op) rest = r
      rw [h1]
      exact ih r pb h

/-- A request whose parsed-body cache is already populated. -/
def cachedRequest : Request where
  model := RestApiRequest.toModel restQueryEvent
  cache := some (.json (.obj [("a", .num 1)]))

/-- C8 witness: a populated cache survives a sequence of calls unchanged,
and the model survives any call sequence. -/
theorem claim8_instance_invariants_witness :
    runOps trivialPlatform cachedRequest
      [.input "a" none, .jsonBody, .queryStr "search" none] = cachedRequest ∧
    (runOps trivialPlatform (RestApiRequest.toRequest restQueryEvent)
      [.input "a" none, .queryStr "search" none]).model =
      (RestApiRequest.toRequest restQueryEvent).model :=
  ⟨(claim8_instance_invariants trivialPlatform
      [.input "a" none, .jsonBody, .queryStr "search" none] cachedRequest).2.1
      (.json (.obj [("a", .num 1)])) rfl,
   (claim8_instance_invariants trivialPlatform
      [.input "a" none, .queryStr "search" none]
      (RestApiRequest.toRequest restQueryEvent)).1⟩

theorem runValidator_error_shape (v : ValidatorInput → Except JsError Json)
    (data : ValidatorInput) (e0 : RequestError)
    (h : BaseRequest.runValidator v data = .error e0) :
    ∃ m dt, e0 = .validation m dt := by
  unfold BaseRequest.runValidator at h
  cases hv : v data with
  | ok out =>
    rw [hv] at h
    cases h
  | error je =>
    rw [hv] at h
    cases je with
    | validationError m dt =>
      cases h
      exact ⟨_, _, rfl⟩
    | otherError m =>
      cases h
      exact ⟨_, _, rfl⟩
    | thrownValue jv =>
      cases h
      exact ⟨_, _, rfl⟩

theorem ensure_error_shape (pf : Platform) (r : Request) (e : RequestError)
    (h : BaseRequest.ensureParsedBody pf r = .error e) : ∃ m, e = .bodyParse m := by
  unfold BaseRequest.ensureParsedBody at h
  repeat' split at h
  all_goals cases h
  all_goals exact ⟨_, rfl⟩

/-- C5: `validate(validator, source)` resolves its data by source — the
JSON body (undefined when not JSON), the raw single-value query mapping
(empty when null), or the raw path mapping (empty when null) — invokes the
capability on it and returns the result; a thrown validation failure
propagates unchanged with its details, any other thrown failure is wrapped
into a validation failure carrying the original message, so every failure
the capability causes surfaces as the validation kind. -/
theorem claim5_validate (pf : Platform) (r : Request)
    (validator : ValidatorInput → Except JsError Json) (source : ValidationSource) :
    (∀ out, validator (.strMap (r.model.queryStringParameters.getD [])) = .ok out →
      BaseRequest.validate pf r validator .query = .ok (out, r)) ∧
    (r.model.queryStringParameters = none →
      BaseRequest.validate pf r validator .query =
        (match BaseRequest.runValidator validator (.strMap []) with
          | .ok out => .ok (out, r)
          | .error e => .error e)) ∧
    (∀ out, validator (.strMap (r.model.pathParameters.getD [])) = .ok out →
      BaseRequest.validate pf r validator .path = .ok (out, r)) ∧
    (∀ jv r', BaseRequest.getJsonBody pf r = .ok (jv, r') →
      ∀ out, validator (bodyValidatorInput jv) = .ok out →
        BaseRequest.validate pf r validator .body = .ok (out, r')) ∧
    (∀ data, (match source with
        | .query => data = ValidatorInput.strMap (r.model.queryStringParameters.getD [])
        | .path => data = ValidatorInput.strMap (r.model.pathParameters.getD [])
        | .body => ∃ jv r', BaseRequest.getJsonBody pf r = .ok (jv, r') ∧
            data = bodyValidatorInput jv) →
      (∀ m dt, validator data = .error (.validationError m dt) →
        BaseRequest.validate pf r validator source = .error (.validation m (.payload dt))) ∧
      (∀ m, validator data = .error (.otherError m) →
        BaseRequest.validate pf r validator source =
          .error (.validation m (.original (.otherError m)))) ∧
      (∀ jv, validator data = .error (.thrownValue jv) →
        BaseRequest.validate pf r validator source =
          .error (.validation "Validation failed" (.original (.thrownValue jv))))) ∧
    (∀ e, BaseRequest.validate pf r validator source = .error e →
      (∃ m dt, e = .validation m dt) ∨ (source = .body ∧ ∃ m, e = .bodyParse m)) := by
  refine ⟨fun out h => ?_, fun hq => ?_, fun out h => ?_, fun jv r' hjb out h => ?_,
    fun data hdata => ?_, fun e he => ?_⟩
  · simp [BaseRequest.validate, BaseRequest.runValidator, h]
  · simp [BaseRequest.validate, hq]
  · simp [BaseRequest.validate, BaseRequest.runValidator, h]
  · simp [BaseRequest.validate, hjb, BaseRequest.runValidator, h]
  · have hcases : ∀ hv : Except JsError Json, validator data = hv →
        (∀ m dt, hv = .error (.validationError m dt) →
          BaseRequest.runValidator validator data = .error (.validation m (.payload dt))) ∧
        (∀ m, hv = .error (.otherError m) →
          BaseRequest.runValidator validator data =
            .error (.validation m (.original (.otherError m)))) ∧
        (∀ jv, hv = .error (.thrownValue jv) →
          BaseRequest.runValidator validator data =
            .error (.validation "Validation failed" (.original (.thrownValue jv)))) := by
      intro hv hveq
      refine ⟨fun m dt h1 => ?_, fun m h1 => ?_, fun jv h1 => ?_⟩ <;>
        (subst h1; simp [BaseRequest.runValidator, hveq, jsErrorMessage])
    have hrun := hcases (validator data) rfl
    cases source with
    | query =>
      subst hdata
      exact ⟨fun m dt h1 => by simp [BaseRequest.validate, hrun.1 m dt h1],
        fun m h1 => by simp [BaseRequest.validate, hrun.2.1 m h1],
        fun jv h1 => by simp [BaseRequest.validate, hrun.2.2 jv h1]⟩
    | path =>
      subst hdata
      exact ⟨fun m dt h1 => by simp [BaseRequest.validate, hrun.1 m dt h1],
        fun m h1 => by simp [BaseRequest.validate, hrun.2.1 m h1],
        fun jv h1 => by simp [BaseRequest.validate, hrun.2.2 jv h1]⟩
    | body =>
      obtain ⟨jv, r', hjb, hdeq⟩ := hdata
      subst hdeq
      exact ⟨fun m dt h1 => by simp [BaseRequest.validate, hjb, hrun.1 m dt h1],
        fun m h1 => by simp [BaseRequest.validate, hjb, hrun.2.1 m h1],
        fun jv2 h1 => by simp [BaseRequest.validate, hjb, hrun.2.2 jv2 h1]⟩
  · cases source with
    | query =>
      simp only [BaseRequest.validate] at he
      cases hV : BaseRequest.runValidator validator
          (.strMap (r.model.queryStringParameters.getD [])) with
      | ok out =>
        rw [hV] at he
        cases he
      | error e0 =>
        rw [hV] at he
        cases he
        exact Or.inl (runValidator_error_shape _ _ _ hV)
    | path =>
      simp only [BaseRequest.validate] at he
      cases hV : BaseRequest.runValidator validator
          (.strMap (r.model.pathParameters.getD [])) with
      | ok out =>
        rw [hV] at he
        cases he
      | error e0 =>
        rw [hV] at he
        cases he
        exact Or.inl (runValidator_error_shape _ _ _ hV)
    | body =>
      cases hE : BaseRequest.ensureParsedBody pf r with
      | error e' =>
        have hjb : BaseRequest.getJsonBody pf r = .error e' := by
          simp [BaseRequest.getJsonBody, hE]
        simp only [BaseRequest.validate, hjb] at he
        cases he
        obtain ⟨m, hm⟩ := ensure_error_shape pf r _ hE
        exact Or.inr ⟨rfl, m, hm⟩
      | ok p =>
        have hjb := getJsonBody_eq pf r p.1 p.2 (by rw [hE])
        simp only [BaseRequest.validate, hjb] at he
        cases hV : BaseRequest.runValidator validator
            (bodyValidatorInput (jsonBodyValue p.1)) with
        | ok out =>
          rw [hV] at he
          cases he
        | error e0 =>
          rw [hV] at he
          cases he
          exact Or.inl (runValidator_error_shape _ _ _ hV)

/-- A REST event with a null query mapping. -/
def noQueryEvent : ProxyEventV1 where
  httpMethod := "GET"
  path := "/"
  headers := some []
  multiValueHeaders := none
  queryStringParameters := none
  multiValueQueryStringParameters := none
  pathParameters := none
  body := none
  isBase64Encoded := false
  requestTimeEpoch := none

/-- A validator accepting exactly the empty mapping. -/
def emptyMapValidator : ValidatorInput → Except JsError Json := fun data =>
  match data with
  | .strMap [] => .ok (.str "empty")
  | _ => .error (.otherError "not-empty")

/-- A validator that always throws a non-validation error. -/
def boomValidator : ValidatorInput → Except JsError Json := fun _ =>
  .error (.otherError "boom")

/-- C5 witness: a null query mapping resolves to the empty mapping (not a
failure), and a non-validation throw surfaces wrapped as a validation
failure with the original message. -/
theorem claim5_validate_witness :
    BaseRequest.validate trivialPlatform (RestApiRequest.toRequest noQueryEvent)
      emptyMapValidator .query =
      .ok (.str "empty", RestApiRequest.toRequest noQueryEvent) ∧
    BaseRequest.validate trivialPlatform (RestApiRequest.toRequest noQueryEvent)
      boomValidator .query =
      .error (.validation "boom" (.original (.otherError "boom"))) := by
  constructor
  · exact (claim5_validate trivialPlatform (RestApiRequest.toRequest noQueryEvent)
      emptyMapValidator .query).1 (.str "empty") rfl
  · exact ((claim5_validate trivialPlatform (RestApiRequest.toRequest noQueryEvent)
      boomValidator .query).2.2.2.2.1 (ValidatorInput.strMap []) rfl).2.1 "boom" rfl
